import Mathlib

/-!
Verification of the npm-publish-action core (src/index.js) via a shallow
embedding in Lean. Pure functions of the source become Lean functions;
the subprocess layer (`run`) is modelled by an oracle
`exec : Cmd → Except RunError Unit` giving each spawned command's outcome,
and every function that spawns commands threads an explicit trace of the
commands it attempted (the source logs "Executing:" before each spawn, so
attempted commands are observable even when they fail).
-/

namespace NpmPublish

/-- One commit record of the triggering push event (`eventObj.commits[i]`):
the source reads `commit.message` and `foundCommit.sha`. -/
structure Commit where
  message : String
  sha : String
deriving Repr, DecidableEq

/-- `eventObj.repository.owner`: tag author identity. -/
structure TagAuthor where
  name : String
  email : String
deriving Repr, DecidableEq

/-- The configuration object built in `main` (src/index.js lines 26-34).
The commit pattern is carried as the raw string; its application to a
message is abstracted by a `matchCapture` function (see `checkCommit`). -/
structure Config where
  commitPattern : String
  createTag : Bool
  tagName : String
  tagMessage : String
  tagAuthor : TagAuthor
  publishCommand : String
  publishArgs : List String
deriving Repr, DecidableEq

/-- A spawned command: working directory, executable, argument list
(the arguments of `run(cwd, command, ...args)`). -/
structure Cmd where
  cwd : String
  command : String
  args : List String
deriving Repr, DecidableEq

/-- Outcome of one subprocess as reported by `run` (src/index.js 174-199):
non-zero exit becomes `ExitError(code)`; failure to launch (`error` event)
becomes a plain `Error` with message `command failed: <command>`. -/
inductive RunError where
  | exitErr (code : Int)
  | launchErr
deriving Repr, DecidableEq

/-- The error taxonomy observed by `main`'s catch handler:
`NeutralExitError` (neutral stop), `ExitError` (subprocess non-zero exit),
and plain `Error` (every other fatal error). -/
inductive AppError where
  | neutral (msg : String)
  | exit (code : Int)
  | error (msg : String)
deriving Repr, DecidableEq

/-- `e.message` as read by the catch handler: `ExitError`'s constructor
sets `command failed with code <code>`. -/
def AppError.message : AppError → String
  | .neutral m => m
  | .exit c => s!"command failed with code {c}"
  | .error m => m

/-- The environment: a partial map from variable names to values. -/
def Env := String → Option String

/-- `getEnv(name)` (src/index.js 40-42): `process.env[name] ||
process.env["INPUT_" + name]`. An unset variable and an empty string are
both falsy in the source and are treated identically by every caller, so
both are collapsed to `""` here. -/
def getEnv (env : Env) (name : String) : String :=
  let a := (env name).getD ""
  if a = "" then (env ("INPUT_" ++ name)).getD "" else a

/-- `checkCommit(config, commits, version)` (src/index.js 99-109).
The regex application `commit.message.match(config.commitPattern)` with a
one-capture-group pattern is abstracted as
`matchCapture : String → Option String`: `some cap` when the message
matches with captured text `cap`, `none` otherwise; the source's guard
`match && match[1] === version` is then `matchCapture msg = some version`.
Returns the first qualifying commit, else throws `NeutralExitError`. -/
def checkCommit (matchCapture : String → Option String) (commits : List Commit)
    (version : String) : Except AppError Commit :=
  match commits with
  | [] => .error (.neutral s!"No commit found for version: {version}")
  | c :: rest =>
    if matchCapture c.message = some version then .ok c
    else checkCommit matchCapture rest version

/-- ECMAScript `GetSubstitution` for one match of the literal pattern
`%s` (a regex with no capture groups): in the replacement string, `$$`
inserts `$`, `$&` inserts the matched text `%s`, `$` followed by the
backquote character (code 96) inserts the original text before the
match, `$` followed by the apostrophe character (code 39) inserts the
original text after the match; any other `$` (including `$1`-style
references, which have no capture group to refer to) is literal.
`pre` and `post` are the original text around the match. -/
def getSubstitution (pre post : List Char) : List Char → List Char
  | [] => []
  | [c] => [c]
  | c :: d :: rest =>
    if c = '$' then
      if d = '$' then '$' :: getSubstitution pre post rest
      else if d = '&' then '%' :: 's' :: getSubstitution pre post rest
      else if d = Char.ofNat 96 then pre ++ getSubstitution pre post rest
      else if d = Char.ofNat 39 then post ++ getSubstitution pre post rest
      else c :: getSubstitution pre post (d :: rest)
    else c :: getSubstitution pre post (d :: rest)

/-- JS `template.replace(/%s/g, version)` (src/index.js 125-126) at
character level: leftmost non-overlapping scan for `%s`; each match is
replaced by `GetSubstitution` applied to the version, with the original
text before the match (`pre`, accumulated) and after it (the remainder)
available to the `$`-escapes. -/
def replaceJS (version : List Char) : List Char → List Char → List Char
  | _, [] => []
  | _, [c] => [c]
  | pre, c :: d :: rest =>
    if c = '%' ∧ d = 's' then
      getSubstitution pre rest version ++
        replaceJS version (pre ++ [c, d]) rest
    else c :: replaceJS version (pre ++ [c]) (d :: rest)

/-- Spec-side verbatim substitution, following the spec's words ("every
occurrence of the placeholder is replaced by the version string"):
leftmost non-overlapping replacement of `%s` by the version itself,
with no interpretation of the version's characters. -/
def substPS (version : List Char) : List Char → List Char
  | [] => []
  | [c] => [c]
  | c :: d :: rest =>
    if c = '%' ∧ d = 's' then version ++ substPS version rest
    else c :: substPS version (d :: rest)

/-- Spec-side view of the same scan: the maximal placeholder-free segments
of a template, in order ("the occurrences of the placeholder" are the
boundaries between consecutive segments). -/
def splitPS : List Char → List (List Char)
  | [] => [[]]
  | [c] => [[c]]
  | c :: d :: rest =>
    if c = '%' ∧ d = 's' then [] :: splitPS rest
    else
      match splitPS (d :: rest) with
      | [] => [[c]]
      | p :: ps => (c :: p) :: ps

/-- Join segments with a separator (spec-side companion of `splitPS`). -/
def joinWith (sep : List Char) : List (List Char) → List Char
  | [] => []
  | [p] => p
  | p :: q :: ps => p ++ sep ++ joinWith sep (q :: ps)

/-- JS `str.includes("%s")` (src/index.js 48) at character level. -/
def hasPS : List Char → Bool
  | [] => false
  | [_] => false
  | c :: d :: rest => (c == '%' && d == 's') || hasPS (d :: rest)

/-- `template.replace(/%s/g, version)` at `String` level. -/
def renderTemplate (template version : String) : String :=
  ⟨replaceJS version.data [] template.data⟩

/-- JS `str.split(" ")` (src/index.js 57) at character level: the fields
between single-space separators; consecutive separators yield empty
fields, and a string without spaces is one field. -/
def splitSpace : List Char → List (List Char)
  | [] => [[]]
  | c :: rest =>
    if c = ' ' then [] :: splitSpace rest
    else
      match splitSpace rest with
      | [] => [[c]]
      | p :: ps => (c :: p) :: ps

/-- `arrayEnv(name)` (src/index.js 55-58): `str ? str.split(" ") : []`. -/
def arrayEnv (env : Env) (name : String) : List String :=
  let str := getEnv env name
  if str = "" then [] else (splitSpace str.data).map (fun l => ⟨l⟩)

/-- `placeholderEnv(name, defaultValue)` (src/index.js 44-53): empty or
unset falls back to the default; a non-empty value without the placeholder
throws at configuration-load time. -/
def placeholderEnv (env : Env) (name defaultValue : String) :
    Except AppError String :=
  let str := getEnv env name
  if str = "" then .ok defaultValue
  else if hasPS str.data then .ok str
  else .error (.error s!"missing placeholder in variable: {name}")

/-- `main`'s configuration assembly (src/index.js 16-34): pattern, flag,
templates (whose load may throw, `TAG_NAME` first), author identity from
the event payload, publish command and extra arguments. -/
def loadConfig (env : Env) (owner : TagAuthor) : Except AppError Config :=
  let pat := getEnv env "COMMIT_PATTERN"
  let pub := getEnv env "PUBLISH_COMMAND"
  match placeholderEnv env "TAG_NAME" "v%s" with
  | .error e => .error e
  | .ok tagName =>
    match placeholderEnv env "TAG_MESSAGE" "v%s" with
    | .error e => .error e
    | .ok tagMessage =>
      .ok {
        commitPattern := if pat = "" then "^(?:Release|Version) (\\S+)" else pat
        createTag := getEnv env "CREATE_TAG" != "false"
        tagName := tagName
        tagMessage := tagMessage
        tagAuthor := owner
        publishCommand := if pub = "" then "yarn" else pub
        publishArgs := arrayEnv env "PUBLISH_ARGS" }

/-- The workspace directory (src/index.js 9-10): `getEnv("WORKSPACE") ||
process.env.GITHUB_WORKSPACE || "/github/workspace"`. -/
def mainDir (env : Env) : String :=
  let w := getEnv env "WORKSPACE"
  if w ≠ "" then w
  else
    let g := (env "GITHUB_WORKSPACE").getD ""
    if g ≠ "" then g else "/github/workspace"

/-- The outcome oracle for subprocesses: what each spawned command would
do if executed. -/
def ExecOracle := Cmd → Except RunError Unit

/-- One `run(cwd, command, ...args)` call (src/index.js 174-199): the
attempted command is recorded on the trace (the source logs it before
spawning), then the oracle's outcome is translated: exit 0 resolves;
non-zero exit rejects with `ExitError(code)`; a launch failure rejects
with `Error("command failed: " + command)`. -/
def runCmd (exec : ExecOracle) (cwd command : String) (args : List String)
    (trace : List Cmd) : List Cmd × Except AppError Unit :=
  let c : Cmd := ⟨cwd, command, args⟩
  (trace ++ [c],
    match exec c with
    | .ok _ => .ok ()
    | .error (.exitErr code) => .error (.exit code)
    | .error .launchErr => .error (.error s!"command failed: {command}"))

/-- Sequencing of awaited `run` calls: a later call is not reached once an
earlier one has rejected. -/
def seqRun (exec : ExecOracle) (cwd command : String) (args : List String) :
    List Cmd × Except AppError Unit → List Cmd × Except AppError Unit
  | (trace, .error e) => (trace, .error e)
  | (trace, .ok _) => runCmd exec cwd command args trace

/-- `createTag(dir, config, version)` (src/index.js 124-152): render the
templates, probe `git rev-parse -q --verify refs/tags/<tagName>` absorbing
only `ExitError` with code 1 (tag absent); an existing tag throws a
bare `NeutralExitError`; otherwise configure the author identity, create
the annotated tag and push it. -/
def createTag (exec : ExecOracle) (dir : String) (config : Config)
    (version : String) (trace : List Cmd) : List Cmd × Except AppError Unit :=
  let tagName := renderTemplate config.tagName version
  let tagMessage := renderTemplate config.tagMessage version
  let probe : Cmd :=
    ⟨dir, "git", ["rev-parse", "-q", "--verify", s!"refs/tags/{tagName}"]⟩
  let trace1 := trace ++ [probe]
  let tagExists : Except AppError Bool :=
    match exec probe with
    | .ok _ => .ok true
    | .error (.exitErr code) =>
      if code = 1 then .ok false else .error (.exit code)
    | .error .launchErr => .error (.error "command failed: git")
  match tagExists with
  | .error e => (trace1, .error e)
  | .ok true => (trace1, .error (.neutral ""))
  | .ok false =>
    seqRun exec dir "git" ["push", "origin", s!"refs/tags/{tagName}"]
      (seqRun exec dir "git" ["tag", "-a", "-m", tagMessage, tagName]
        (seqRun exec dir "git" ["config", "user.email", config.tagAuthor.email]
          (seqRun exec dir "git" ["config", "user.name", config.tagAuthor.name]
            (trace1, .ok ()))))

/-- The strategy command line (src/index.js 157-162), before extra
arguments: `yarn` injects the version, `npm` does not, any other selector
is a bare executable name. -/
def publishCmdBase (publishCommand version : String) : List String :=
  if publishCommand = "yarn" then
    ["yarn", "publish", "--non-interactive", "--new-version", version]
  else if publishCommand = "npm" then ["npm", "publish"]
  else [publishCommand]

/-- `publishPackage(dir, config, version)` (src/index.js 154-167):
`run(dir, ...cmd, ...publishArgs)`. -/
def publishPackage (exec : ExecOracle) (dir : String) (config : Config)
    (version : String) (trace : List Cmd) : List Cmd × Except AppError Unit :=
  let cmd := publishCmdBase config.publishCommand version
  runCmd exec dir (cmd.headD "") (cmd.tail ++ config.publishArgs) trace

/-- The parsed `package.json`: only its `version` field is consumed;
`none` models a missing or `null` field. -/
structure PackageJson where
  version : Option String
deriving Repr, DecidableEq

/-- Result of `readJson(packageFile)` for the package metadata: `none`
when the read or parse fails (rejected promise), `some none` when the
parsed value is `null`, `some (some p)` otherwise. -/
abbrev PackageRead := Option (Option PackageJson)

/-- `processDirectory(dir, config, commits)` (src/index.js 60-97). A
failed package read is wrapped in `NeutralExitError` naming the package
file (`join(dir, "package.json")`, modelled as concatenation with "/");
a null object or version throws `Error("missing version field!")`; then
`git config --global --add safe.directory /github/workspace` runs, the
commit matcher runs, the tag step runs when enabled, the publish step
runs, and on success the three outputs are set. -/
def processDirectory (exec : ExecOracle) (matchCapture : String → Option String)
    (dir : String) (config : Config) (packageRead : PackageRead)
    (commits : List Commit) :
    List Cmd × Except AppError (List (String × String)) :=
  let packageFile := dir ++ "/package.json"
  match packageRead with
  | none => ([], .error (.neutral s!"package file not found: {packageFile}"))
  | some pkgOpt =>
    match (match pkgOpt with
           | none => Except.error (AppError.error "missing version field!")
           | some pkg =>
             match pkg.version with
             | none => Except.error (AppError.error "missing version field!")
             | some v => Except.ok v) with
    | .error e => ([], .error e)
    | .ok version =>
      match runCmd exec dir "git"
          ["config", "--global", "--add", "safe.directory", "/github/workspace"]
          [] with
      | (tr, .error e) => (tr, .error e)
      | (tr, .ok _) =>
        match checkCommit matchCapture commits version with
        | .error e => (tr, .error e)
        | .ok foundCommit =>
          match (if config.createTag then createTag exec dir config version tr
                 else (tr, .ok ())) with
          | (tr2, .error e) => (tr2, .error e)
          | (tr2, .ok _) =>
            match publishPackage exec dir config version tr2 with
            | (tr3, .error e) => (tr3, .error e)
            | (tr3, .ok _) =>
              (tr3, .ok [("changed", "true"), ("version", version),
                         ("commit", foundCommit.sha)])

/-- What one whole invocation reports: the `::set-output` name/value pairs
(percent-encoding is a transport detail and is not modelled), the process
exit code, and the message logged by the catch handler, if any. -/
structure Terminal where
  outputs : List (String × String)
  exitCode : Int
  logged : Option String
deriving Repr, DecidableEq

/-- `main` plus its catch handler (src/index.js 8-38, 210-222): assemble
the configuration (the event payload arrives as `owner` and `commits`),
process the directory, and classify the outcome: success keeps the
outputs set by `processDirectory` and exits 0; `NeutralExitError` reports
changed=false and exits 0 without logging; any other error reports
changed=false, logs `e.message`, and exits 1. -/
def mainRun (env : Env) (exec : ExecOracle)
    (matchCapture : String → Option String) (owner : TagAuthor)
    (commits : List Commit) (packageRead : PackageRead) :
    List Cmd × Terminal :=
  match loadConfig env owner with
  | .error e => ([], ⟨[("changed", "false")], 1, some e.message⟩)
  | .ok config =>
    match processDirectory exec matchCapture (mainDir env) config
        packageRead commits with
    | (tr, .ok outs) => (tr, ⟨outs, 0, none⟩)
    | (tr, .error (.neutral _)) => (tr, ⟨[("changed", "false")], 0, none⟩)
    | (tr, .error e) => (tr, ⟨[("changed", "false")], 1, some e.message⟩)

/-- Fixture: an environment with no variable set. -/
def envEmpty : Env := fun _ => none

/-- Fixture: an environment disabling tag creation. -/
def envNoTag : Env := fun n => if n = "CREATE_TAG" then some "false" else none

/-- Fixture: an oracle under which every command exits 0. -/
def execAllOk : ExecOracle := fun _ => .ok ()

/-- Fixture: an oracle under which the tag probe (`git rev-parse ...`)
exits 1 (tag absent) and every other command exits 0. -/
def execTagAbsent : ExecOracle := fun c =>
  if c.args.head? = some "rev-parse" then .error (.exitErr 1) else .ok ()

/-- Fixture: an oracle under which the tag probe exits 128 and every
other command exits 0. -/
def execProbe128 : ExecOracle := fun c =>
  if c.args.head? = some "rev-parse" then .error (.exitErr 128) else .ok ()

/-- Fixture: an oracle under which the tag probe fails to launch and
every other command exits 0. -/
def execProbeLaunch : ExecOracle := fun c =>
  if c.args.head? = some "rev-parse" then .error .launchErr else .ok ()

/-- Fixture: an oracle under which every `git config ...` invocation
exits 2 and everything else exits 0. -/
def execConfigFails : ExecOracle := fun c =>
  if c.args.head? = some "config" then .error (.exitErr 2) else .ok ()

/-- Fixture: a repository owner identity. -/
def ownerX : TagAuthor := ⟨"octo", "octo@example.com"⟩

/-- Fixture: the capture function of the default pattern restricted to
one message: `Release 1.2.0` captures `1.2.0`. -/
def matchRelease : String → Option String :=
  fun m => if m = "Release 1.2.0" then some "1.2.0" else none

/-- Fixture: Scenario A's commit list. -/
def commitsA : List Commit := [⟨"fix typo", "aaa"⟩, ⟨"Release 1.2.0", "bbb"⟩]

/-- Fixture: a package with version 1.2.0. -/
def pkgA : PackageJson := ⟨some "1.2.0"⟩

/-- Fixture: the configuration `loadConfig` produces under `envEmpty`. -/
def cfgDefault : Config :=
  ⟨"^(?:Release|Version) (\\S+)", true, "v%s", "v%s", ownerX, "yarn", []⟩

/-- Fixture: the configuration produced under `envNoTag`. -/
def cfgNoTag : Config :=
  ⟨"^(?:Release|Version) (\\S+)", false, "v%s", "v%s", ownerX, "yarn", []⟩

/-- C1: `checkCommit` returns the first commit in list order whose
captured text equals the target version, and a neutral error when no
commit qualifies. -/
theorem checkCommit_first_match (f : String → Option String)
    (commits : List Commit) (version : String) :
    (∀ c : Commit, checkCommit f commits version = .ok c ↔
      ∃ pre post, commits = pre ++ c :: post ∧ f c.message = some version ∧
        ∀ c' ∈ pre, f c'.message ≠ some version) ∧
    (checkCommit f commits version =
        .error (.neutral s!"No commit found for version: {version}") ↔
      ∀ c ∈ commits, f c.message ≠ some version) := by
  induction commits with
  | nil =>
    constructor
    · intro c
      simp [checkCommit]
    · simp [checkCommit]
  | cons c0 rest ih =>
    by_cases h0 : f c0.message = some version
    · constructor
      · intro c
        constructor
        · intro hok
          refine ⟨[], rest, ?_, ?_, ?_⟩
          · simp [checkCommit, h0] at hok
            simp [hok]
          · simp [checkCommit, h0] at hok
            simpa [hok] using h0
          · simp
        · rintro ⟨pre, post, hdecomp, hmatch, hpre⟩
          cases pre with
          | nil =>
            simp at hdecomp
            obtain ⟨hc, _⟩ := hdecomp
            subst hc
            simp [checkCommit, h0]
          | cons p ps =>
            exfalso
            have hp : p = c0 := by
              have := congrArg (List.head? ·) hdecomp
              simpa using this.symm
            exact hpre p (by simp) (hp ▸ h0)
      · constructor
        · intro herr
          exfalso
          simp [checkCommit, h0] at herr
        · intro hall
          exact absurd h0 (hall c0 (by simp))
    · have step : checkCommit f (c0 :: rest) version =
          checkCommit f rest version := by
        simp [checkCommit, h0]
      constructor
      · intro c
        rw [step]
        constructor
        · intro hok
          obtain ⟨pre, post, hdecomp, hmatch, hpre⟩ := (ih.1 c).mp hok
          refine ⟨c0 :: pre, post, by simp [hdecomp], hmatch, ?_⟩
          intro c' hc'
          rcases List.mem_cons.mp hc' with h | h
          · exact h ▸ h0
          · exact hpre c' h
        · rintro ⟨pre, post, hdecomp, hmatch, hpre⟩
          cases pre with
          | nil =>
            simp at hdecomp
            exact absurd (hdecomp.1 ▸ hmatch) h0
          | cons p ps =>
            have htail : rest = ps ++ c :: post := by
              have := congrArg List.tail hdecomp
              simpa using this
            exact (ih.1 c).mpr ⟨ps, post, htail, hmatch,
              fun c' hc' => hpre c' (by simp [hc'])⟩
      · rw [step]
        constructor
        · intro herr
          intro c hc
          rcases List.mem_cons.mp hc with h | h
          · exact h ▸ h0
          · exact ih.2.mp herr c h
        · intro hall
          exact ih.2.mpr fun c hc => hall c (by simp [hc])

/-- Two-step list induction matching the recursion pattern of the
placeholder scanners. -/
theorem chars_twoStep {motive : List Char → Prop} (h0 : motive [])
    (h1 : ∀ c, motive [c])
    (h2 : ∀ c d rest, motive rest → motive (d :: rest) →
      motive (c :: d :: rest)) : ∀ l, motive l
  | [] => h0
  | [c] => h1 c
  | c :: d :: rest =>
    h2 c d rest (chars_twoStep h0 h1 h2 rest) (chars_twoStep h0 h1 h2 (d :: rest))

/-- The segment list of a template is never empty. -/
theorem splitPS_ne_nil : ∀ l : List Char, splitPS l ≠ [] := by
  intro l
  induction l using chars_twoStep with
  | h0 => simp [splitPS]
  | h1 c => simp [splitPS]
  | h2 c d rest ih1 ih2 =>
    by_cases h : c = '%' ∧ d = 's'
    · simp [splitPS, h]
    · simp only [splitPS, if_neg h]
      cases hsp : splitPS (d :: rest) with
      | nil => simp
      | cons p ps => simp

/-- Prepending a character to the first segment prepends it to the
joined result. -/
theorem joinWith_cons_head (c : Char) (v p : List Char)
    (ps : List (List Char)) :
    joinWith v ((c :: p) :: ps) = c :: joinWith v (p :: ps) := by
  cases ps with
  | nil => simp [joinWith]
  | cons q qs => simp [joinWith]

/-- Joining the placeholder-free segments with the version is exactly
the verbatim substitution: every placeholder occurrence becomes the
version. -/
theorem join_splitPS (v : List Char) :
    ∀ l, joinWith v (splitPS l) = substPS v l := by
  intro l
  induction l using chars_twoStep with
  | h0 => simp [splitPS, joinWith, substPS]
  | h1 c => simp [splitPS, joinWith, substPS]
  | h2 c d rest ih1 ih2 =>
    by_cases h : c = '%' ∧ d = 's'
    · simp only [splitPS, substPS, if_pos h]
      obtain ⟨p, ps, hps⟩ := List.exists_cons_of_ne_nil (splitPS_ne_nil rest)
      rw [hps]
      have hstep : joinWith v ([] :: p :: ps) = v ++ joinWith v (p :: ps) := by
        simp [joinWith]
      rw [hstep, ← hps, ih1]
    · simp only [splitPS, substPS, if_neg h]
      obtain ⟨p, ps, hps⟩ :=
        List.exists_cons_of_ne_nil (splitPS_ne_nil (d :: rest))
      rw [hps]
      show joinWith v ((c :: p) :: ps) = c :: substPS v (d :: rest)
      rw [joinWith_cons_head, ← hps, ih2]

/-- The first segment of a split starting at `d` is empty or starts
with `d`. -/
theorem splitPS_head (d : Char) (rest : List Char) :
    ∀ p ps, splitPS (d :: rest) = p :: ps → p = [] ∨ ∃ t, p = d :: t := by
  intro p ps hps
  cases rest with
  | nil =>
    simp [splitPS] at hps
    exact Or.inr ⟨[], hps.1.symm⟩
  | cons e rest2 =>
    by_cases h : d = '%' ∧ e = 's'
    · simp only [splitPS, if_pos h] at hps
      exact Or.inl (List.cons_eq_cons.mp hps).1.symm
    · simp only [splitPS, if_neg h] at hps
      obtain ⟨q, qs, hq⟩ :=
        List.exists_cons_of_ne_nil (splitPS_ne_nil (e :: rest2))
      rw [hq] at hps
      exact Or.inr ⟨q, (List.cons_eq_cons.mp hps).1.symm⟩

/-- No segment produced by the template scan contains the placeholder. -/
theorem splitPS_no_ps : ∀ l : List Char, ∀ p ∈ splitPS l, hasPS p = false := by
  intro l
  induction l using chars_twoStep with
  | h0 => intro p hp; simp [splitPS] at hp; simp [hp, hasPS]
  | h1 c => intro p hp; simp [splitPS] at hp; simp [hp, hasPS]
  | h2 c d rest ih1 ih2 =>
    intro p hp
    by_cases h : c = '%' ∧ d = 's'
    · simp only [splitPS, if_pos h] at hp
      rcases List.mem_cons.mp hp with h1 | h1
      · simp [h1, hasPS]
      · exact ih1 p h1
    · simp only [splitPS, if_neg h] at hp
      obtain ⟨q, qs, hq⟩ :=
        List.exists_cons_of_ne_nil (splitPS_ne_nil (d :: rest))
      rw [hq] at hp
      rcases List.mem_cons.mp hp with h1 | h1
      · subst h1
        rcases splitPS_head d rest q qs hq with hq0 | ⟨t, ht⟩
        · subst hq0; simp [hasPS]
        · subst ht
          have hqmem : hasPS (d :: t) = false :=
            ih2 (d :: t) (by rw [hq]; exact List.mem_cons_self _ _)
          simp only [hasPS, hqmem, Bool.or_false]
          by_cases hc : c = '%'
          · have hd : d ≠ 's' := fun hdd => h ⟨hc, hdd⟩
            simp [hc, beq_eq_false_iff_ne, hd]
          · simp [beq_eq_false_iff_ne, hc]
      · exact ih2 p (by rw [hq]; exact List.mem_cons_of_mem _ h1)

/-- The field list of a space split is never empty. -/
theorem splitSpace_ne_nil : ∀ l : List Char, splitSpace l ≠ [] := by
  intro l
  induction l with
  | nil => simp [splitSpace]
  | cons c rest ih =>
    by_cases h : c = ' '
    · simp [splitSpace, h]
    · simp only [splitSpace, if_neg h]
      cases hsp : splitSpace rest with
      | nil => simp
      | cons p ps => simp

/-- Joining the fields with single spaces restores the original string:
the split consumes exactly the space characters, one separator each. -/
theorem join_splitSpace : ∀ l : List Char, joinWith [' '] (splitSpace l) = l := by
  intro l
  induction l with
  | nil => simp [splitSpace, joinWith]
  | cons c rest ih =>
    by_cases h : c = ' '
    · simp only [splitSpace, if_pos h]
      obtain ⟨p, ps, hps⟩ :=
        List.exists_cons_of_ne_nil (splitSpace_ne_nil rest)
      rw [hps]
      have hstep : joinWith [' '] ([] :: p :: ps) =
          ' ' :: joinWith [' '] (p :: ps) := by
        simp [joinWith]
      rw [hstep, ← hps, ih, h]
    · simp only [splitSpace, if_neg h]
      obtain ⟨p, ps, hps⟩ :=
        List.exists_cons_of_ne_nil (splitSpace_ne_nil rest)
      rw [hps]
      show joinWith [' '] ((c :: p) :: ps) = c :: rest
      rw [joinWith_cons_head, ← hps, ih]

/-- No field produced by the space split contains a space. -/
theorem splitSpace_no_space :
    ∀ l : List Char, ∀ p ∈ splitSpace l, ' ' ∉ p := by
  intro l
  induction l with
  | nil => intro p hp; simp [splitSpace] at hp; simp [hp]
  | cons c rest ih =>
    intro p hp
    by_cases h : c = ' '
    · simp only [splitSpace, if_pos h] at hp
      rcases List.mem_cons.mp hp with h1 | h1
      · simp [h1]
      · exact ih p h1
    · simp only [splitSpace, if_neg h] at hp
      obtain ⟨q, qs, hq⟩ :=
        List.exists_cons_of_ne_nil (splitSpace_ne_nil rest)
      rw [hq] at hp
      rcases List.mem_cons.mp hp with h1 | h1
      · subst h1
        intro hmem
        rcases List.mem_cons.mp hmem with h2 | h2
        · exact h h2.symm
        · exact ih q (by rw [hq]; exact List.mem_cons_self _ _) h2
      · exact ih p (by rw [hq]; exact List.mem_cons_of_mem _ h1)

/-- The split has one more field than the string has spaces: each space
is a field boundary, so consecutive spaces contribute empty fields. -/
theorem splitSpace_count :
    ∀ l : List Char, (splitSpace l).length = l.count ' ' + 1 := by
  intro l
  induction l with
  | nil => simp [splitSpace]
  | cons c rest ih =>
    by_cases h : c = ' '
    · simp [splitSpace, h, List.count_cons, ih]
    · simp only [splitSpace, if_neg h]
      obtain ⟨p, ps, hps⟩ :=
        List.exists_cons_of_ne_nil (splitSpace_ne_nil rest)
      rw [hps]
      have : (splitSpace rest).length = rest.count ' ' + 1 := ih
      rw [hps] at this
      simp only [List.length_cons] at this ⊢
      rw [this, List.count_cons]
      simp [h]

/-- C3: the publish dispatcher builds exactly the strategy command line:
`yarn` injects the version, `npm` does not, and any other selector is
invoked bare; the configured extra arguments follow in every case. -/
theorem publishPackage_strategy (exec : ExecOracle) (dir : String)
    (config : Config) (version : String) (trace : List Cmd) :
    (config.publishCommand = "yarn" →
      (publishPackage exec dir config version trace).1 =
        trace ++ [⟨dir, "yarn",
          ["publish", "--non-interactive", "--new-version", version] ++
            config.publishArgs⟩]) ∧
    (config.publishCommand = "npm" →
      (publishPackage exec dir config version trace).1 =
        trace ++ [⟨dir, "npm", ["publish"] ++ config.publishArgs⟩]) ∧
    (config.publishCommand ≠ "yarn" → config.publishCommand ≠ "npm" →
      (publishPackage exec dir config version trace).1 =
        trace ++ [⟨dir, config.publishCommand, config.publishArgs⟩]) := by
  refine ⟨fun h => ?_, fun h => ?_, fun h1 h2 => ?_⟩
  · simp [publishPackage, publishCmdBase, runCmd, h]
  · simp [publishPackage, publishCmdBase, runCmd, h]
  · simp [publishPackage, publishCmdBase, runCmd, h1, h2]

/-- C3 witness: the three strategies at concrete configurations. -/
theorem publishPackage_strategy_witness :
    (publishPackage execAllOk "/w" cfgDefault "1.2.0" []).1 =
      [⟨"/w", "yarn",
        ["publish", "--non-interactive", "--new-version", "1.2.0"]⟩] ∧
    (publishPackage execAllOk "/w"
        { cfgDefault with publishCommand := "npm" } "1.2.0" []).1 =
      [⟨"/w", "npm", ["publish"]⟩] ∧
    (publishPackage execAllOk "/w"
        { cfgDefault with publishCommand := "pnpm",
                          publishArgs := ["--tag", "x"] } "1.2.0" []).1 =
      [⟨"/w", "pnpm", ["--tag", "x"]⟩] := by
  refine ⟨?_, ?_, ?_⟩
  · have h := (publishPackage_strategy execAllOk "/w" cfgDefault
      "1.2.0" []).1 rfl
    simpa using h
  · have h := (publishPackage_strategy execAllOk "/w"
      { cfgDefault with publishCommand := "npm" } "1.2.0" []).2.1 rfl
    simpa using h
  · have h := (publishPackage_strategy execAllOk "/w"
      { cfgDefault with publishCommand := "pnpm",
                        publishArgs := ["--tag", "x"] } "1.2.0" []).2.2
      (by decide) (by decide)
    simpa using h

/-- C4: in the tag-existence probe, only an `ExitError` with code exactly
1 is absorbed (translated to "tag absent", so the run proceeds to the
author-configuration, tag and push steps); any other exit code propagates
as that `ExitError` and a launch failure propagates as a plain error,
each with no further command attempted. -/
theorem createTag_probe_absorption (exec : ExecOracle) (dir : String)
    (config : Config) (version : String) (trace : List Cmd) :
    (exec ⟨dir, "git", ["rev-parse", "-q", "--verify",
        s!"refs/tags/{renderTemplate config.tagName version}"]⟩ =
          .error (.exitErr 1) →
      createTag exec dir config version trace =
        seqRun exec dir "git"
          ["push", "origin",
            s!"refs/tags/{renderTemplate config.tagName version}"]
          (seqRun exec dir "git"
            ["tag", "-a", "-m", renderTemplate config.tagMessage version,
              renderTemplate config.tagName version]
            (seqRun exec dir "git"
              ["config", "user.email", config.tagAuthor.email]
              (seqRun exec dir "git"
                ["config", "user.name", config.tagAuthor.name]
                (trace ++ [⟨dir, "git", ["rev-parse", "-q", "--verify",
                  s!"refs/tags/{renderTemplate config.tagName version}"]⟩],
                 .ok ()))))) ∧
    (∀ code : Int, code ≠ 1 →
      exec ⟨dir, "git", ["rev-parse", "-q", "--verify",
          s!"refs/tags/{renderTemplate config.tagName version}"]⟩ =
            .error (.exitErr code) →
      createTag exec dir config version trace =
        (trace ++ [⟨dir, "git", ["rev-parse", "-q", "--verify",
          s!"refs/tags/{renderTemplate config.tagName version}"]⟩],
         .error (.exit code))) ∧
    (exec ⟨dir, "git", ["rev-parse", "-q", "--verify",
        s!"refs/tags/{renderTemplate config.tagName version}"]⟩ =
          .error .launchErr →
      createTag exec dir config version trace =
        (trace ++ [⟨dir, "git", ["rev-parse", "-q", "--verify",
          s!"refs/tags/{renderTemplate config.tagName version}"]⟩],
         .error (.error "command failed: git"))) := by
  refine ⟨fun hexec => ?_, fun code hcode hexec => ?_, fun hexec => ?_⟩
  · simp [createTag, hexec]
  · simp [createTag, hexec, hcode]
  · simp [createTag, hexec]

/-- C4 witness: probe exit 128 and probe launch failure propagate; probe
exit 1 is absorbed and the remaining tag steps run. -/
theorem createTag_probe_absorption_witness :
    createTag execProbe128 "/w" cfgDefault "1.2.0" [] =
      ([⟨"/w", "git", ["rev-parse", "-q", "--verify", "refs/tags/v1.2.0"]⟩],
       .error (.exit 128)) ∧
    createTag execProbeLaunch "/w" cfgDefault "1.2.0" [] =
      ([⟨"/w", "git", ["rev-parse", "-q", "--verify", "refs/tags/v1.2.0"]⟩],
       .error (.error "command failed: git")) ∧
    createTag execTagAbsent "/w" cfgDefault "1.2.0" [] =
      ([⟨"/w", "git", ["rev-parse", "-q", "--verify", "refs/tags/v1.2.0"]⟩,
        ⟨"/w", "git", ["config", "user.name", "octo"]⟩,
        ⟨"/w", "git", ["config", "user.email", "octo@example.com"]⟩,
        ⟨"/w", "git", ["tag", "-a", "-m", "v1.2.0", "v1.2.0"]⟩,
        ⟨"/w", "git", ["push", "origin", "refs/tags/v1.2.0"]⟩],
       .ok ()) := by
  refine ⟨?_, ?_, ?_⟩
  · exact (createTag_probe_absorption execProbe128 "/w" cfgDefault
      "1.2.0" []).2.1 128 (by decide) rfl
  · exact (createTag_probe_absorption execProbeLaunch "/w" cfgDefault
      "1.2.0" []).2.2 rfl
  · have h := (createTag_probe_absorption execTagAbsent "/w" cfgDefault
      "1.2.0" []).1 rfl
    rw [h]
    rfl

/-- C5: with tag creation enabled, when the rendered tag already exists
(the probe exits 0), the run stops neutrally at the tag step: only the
safe.directory command and the probe are executed — no tag creation, no
push and no publish command — and the run reports changed=false with
exit status 0. -/
theorem tag_exists_neutral_stop (env : Env) (exec : ExecOracle)
    (matchCapture : String → Option String) (owner : TagAuthor)
    (commits : List Commit) (pkg : PackageJson) (version : String)
    (c : Commit) (config : Config)
    (hcfg : loadConfig env owner = .ok config)
    (hct : config.createTag = true)
    (hpkg : pkg.version = some version)
    (hfound : checkCommit matchCapture commits version = .ok c)
    (hsafe : exec ⟨mainDir env, "git",
      ["config", "--global", "--add", "safe.directory",
        "/github/workspace"]⟩ = .ok ())
    (hprobe : exec ⟨mainDir env, "git", ["rev-parse", "-q", "--verify",
      s!"refs/tags/{renderTemplate config.tagName version}"]⟩ = .ok ()) :
    mainRun env exec matchCapture owner commits (some (some pkg)) =
      ([⟨mainDir env, "git",
          ["config", "--global", "--add", "safe.directory",
            "/github/workspace"]⟩,
        ⟨mainDir env, "git", ["rev-parse", "-q", "--verify",
          s!"refs/tags/{renderTemplate config.tagName version}"]⟩],
       ⟨[("changed", "false")], 0, none⟩) := by
  simp [mainRun, hcfg, processDirectory, hpkg, runCmd, hsafe, hfound, hct,
    createTag, hprobe]

/-- C5 witness: Scenario C — package version 1.2.0, matching commit,
every git command succeeds, so the probe reports the tag as present. -/
theorem tag_exists_neutral_stop_witness :
    mainRun envEmpty execAllOk matchRelease ownerX commitsA
        (some (some pkgA)) =
      ([⟨"/github/workspace", "git",
          ["config", "--global", "--add", "safe.directory",
            "/github/workspace"]⟩,
        ⟨"/github/workspace", "git",
          ["rev-parse", "-q", "--verify", "refs/tags/v1.2.0"]⟩],
       ⟨[("changed", "false")], 0, none⟩) :=
  tag_exists_neutral_stop envEmpty execAllOk matchRelease ownerX commitsA
    pkgA "1.2.0" ⟨"Release 1.2.0", "bbb"⟩ cfgDefault rfl rfl rfl rfl rfl rfl

/-- A replacement string without `$` is inserted verbatim by
`GetSubstitution`. -/
theorem getSubstitution_no_dollar :
    ∀ v : List Char, '$' ∉ v →
      ∀ pre post : List Char, getSubstitution pre post v = v := by
  intro v
  induction v using chars_twoStep with
  | h0 => intro hv pre post; rfl
  | h1 c => intro hv pre post; rfl
  | h2 c d rest ih1 ih2 =>
    intro hv pre post
    have hc : c ≠ '$' := fun h => hv (by simp [h])
    simp only [getSubstitution, if_neg hc]
    rw [ih2 (fun h => hv (List.mem_cons_of_mem _ h)) pre post]

/-- With a `$`-free version the source's replacement coincides with the
spec-side verbatim substitution. -/
theorem replaceJS_no_dollar (v : List Char) (hv : '$' ∉ v) :
    ∀ rem pre : List Char, replaceJS v pre rem = substPS v rem := by
  intro rem
  induction rem using chars_twoStep with
  | h0 => intro pre; rfl
  | h1 c => intro pre; rfl
  | h2 c d rest ih1 ih2 =>
    intro pre
    by_cases h : c = '%' ∧ d = 's'
    · simp only [replaceJS, substPS, if_pos h]
      rw [getSubstitution_no_dollar v hv pre rest, ih1 (pre ++ [c, d])]
    · simp only [replaceJS, substPS, if_neg h]
      rw [ih2 (pre ++ [c])]

/-- C6 counterexample: with version `1.0$&` the source renders `v%s` to
`v1.0%s` — the `$&` escape of `String.prototype.replace` re-inserts the
matched `%s` — which is not the result of replacing the occurrence by
the version string itself (`v1.0$&`). -/
theorem template_total_substitution_cex :
    renderTemplate "v%s" "1.0$&" = "v1.0%s" ∧
    (⟨substPS "1.0$&".data "v%s".data⟩ : String) = "v1.0$&" ∧
    renderTemplate "v%s" "1.0$&" ≠ ⟨substPS "1.0$&".data "v%s".data⟩ := by
  refine ⟨rfl, rfl, ?_⟩
  decide

/-- C6 (amended): template rendering substitutes every placeholder
occurrence, inserting the version through the replacement-string escape
semantics of `String.prototype.replace`; whenever the version contains
no `$`, every occurrence is replaced by the version string verbatim —
the rendered text is the placeholder-free segments of the template
joined by the version — and a non-empty configured template lacking the
placeholder is rejected while the configuration loads, before any
command is executed and before the directory is processed. -/
theorem template_total_substitution (env : Env) (exec : ExecOracle)
    (matchCapture : String → Option String) (owner : TagAuthor)
    (commits : List Commit) (packageRead : PackageRead)
    (t v name d : String) :
    ('$' ∉ v.data →
      renderTemplate t v = ⟨joinWith v.data (splitPS t.data)⟩ ∧
      ∀ p ∈ splitPS t.data, hasPS p = false) ∧
    (getEnv env name ≠ "" → hasPS (getEnv env name).data = false →
      placeholderEnv env name d =
        .error (.error s!"missing placeholder in variable: {name}")) ∧
    (getEnv env "TAG_NAME" ≠ "" →
      hasPS (getEnv env "TAG_NAME").data = false →
      ∃ e : AppError, loadConfig env owner = .error e) ∧
    (∀ e : AppError, loadConfig env owner = .error e →
      mainRun env exec matchCapture owner commits packageRead =
        ([], ⟨[("changed", "false")], 1, some e.message⟩)) := by
  refine ⟨fun hv => ⟨?_, splitPS_no_ps t.data⟩, fun h1 h2 => ?_,
    fun h1 h2 => ?_, fun e he => ?_⟩
  · unfold renderTemplate
    rw [replaceJS_no_dollar v.data hv t.data [], join_splitPS]
  · simp [placeholderEnv, h1, h2]
  · refine ⟨.error s!"missing placeholder in variable: TAG_NAME", ?_⟩
    simp [loadConfig, placeholderEnv, h1, h2]
    rfl
  · simp [mainRun, he]

/-- C6 witness: rendering `v%s-%s` with `1.2.0`, and rejection of the
placeholder-free template `release` at load time with an empty trace. -/
theorem template_total_substitution_witness :
    renderTemplate "v%s-%s" "1.2.0" = "v1.2.0-1.2.0" ∧
    (∃ e : AppError,
      loadConfig (fun n => if n = "TAG_NAME" then some "release" else none)
        ownerX = .error e) ∧
    mainRun (fun n => if n = "TAG_NAME" then some "release" else none)
        execAllOk matchRelease ownerX commitsA (some (some pkgA)) =
      ([], ⟨[("changed", "false")], 1,
        some "missing placeholder in variable: TAG_NAME"⟩) := by
  have h := template_total_substitution
    (fun n => if n = "TAG_NAME" then some "release" else none) execAllOk
    matchRelease ownerX commitsA (some (some pkgA)) "v%s-%s" "1.2.0"
    "TAG_NAME" "v%s"
  refine ⟨?_, ?_, ?_⟩
  · have h1 := (h.1 (by decide)).1
    rw [h1]
    rfl
  · exact h.2.2.1 (by decide) (by decide)
  · obtain ⟨e, he⟩ := h.2.2.1 (by decide) (by decide)
    have h4 := h.2.2.2 e he
    have hee : e = .error "missing placeholder in variable: TAG_NAME" := by
      have : loadConfig
          (fun n => if n = "TAG_NAME" then some "release" else none)
          ownerX =
          .error (.error "missing placeholder in variable: TAG_NAME") := by
        rfl
      rw [this] at he
      exact (Except.error.inj he).symm
    rw [hee] at h4
    exact h4

/-- C2 counterexample: with the package metadata file absent, the run
ends with exit status 0 (a neutral stop) and nothing logged — not with
the failing (non-zero) exit status the claim requires. -/
theorem missing_package_fatal_cex :
    mainRun envEmpty execAllOk matchRelease ownerX commitsA none =
      ([], ⟨[("changed", "false")], 0, none⟩) := by
  rfl

/-- C2 amended: a missing (or unreadable) package metadata file ends the
run as a neutral stop: no command is executed, `changed=false`, exit
status 0, nothing logged; internally the failure is a `NeutralExitError`
whose message names the missing package file. -/
theorem missing_package_neutral (env : Env) (exec : ExecOracle)
    (matchCapture : String → Option String) (owner : TagAuthor)
    (commits : List Commit) (config : Config)
    (hcfg : loadConfig env owner = .ok config) :
    mainRun env exec matchCapture owner commits none =
      ([], ⟨[("changed", "false")], 0, none⟩) ∧
    (let packageFile := mainDir env ++ "/package.json"
     (processDirectory exec matchCapture (mainDir env) config none
        commits).2 =
      .error (.neutral s!"package file not found: {packageFile}")) := by
  constructor
  · simp [mainRun, hcfg, processDirectory]
  · simp [processDirectory]

/-- C2 amended witness: the neutral stop and its message at a concrete
input. -/
theorem missing_package_neutral_witness :
    mainRun envEmpty execAllOk matchRelease ownerX commitsA none =
      ([], ⟨[("changed", "false")], 0, none⟩) ∧
    (processDirectory execAllOk matchRelease "/github/workspace" cfgDefault
        none commitsA).2 =
      .error (.neutral "package file not found: /github/workspace/package.json") := by
  have h := missing_package_neutral envEmpty execAllOk matchRelease ownerX
    commitsA cfgDefault rfl
  exact ⟨h.1, h.2⟩

/-- The publish step attempts exactly one command, regardless of its
outcome: the strategy head with the strategy tail plus the extra
arguments. -/
theorem publishPackage_fst (exec : ExecOracle) (dir : String)
    (config : Config) (version : String) (trace : List Cmd) :
    (publishPackage exec dir config version trace).1 =
      trace ++ [⟨dir,
        (publishCmdBase config.publishCommand version).headD "",
        (publishCmdBase config.publishCommand version).tail ++
          config.publishArgs⟩] := by
  simp [publishPackage, runCmd]

/-- A sequenced run only ever appends to the trace. -/
theorem seqRun_fst_append (exec : ExecOracle) (cwd command : String)
    (args : List String) (trace0 : List Cmd) :
    ∀ st : List Cmd × Except AppError Unit, ∀ ext : List Cmd,
      st.1 = trace0 ++ ext →
      ∃ ext2 : List Cmd,
        (seqRun exec cwd command args st).1 = trace0 ++ ext2 := by
  rintro ⟨tr, res⟩ ext h
  cases res with
  | error e => exact ⟨ext, h⟩
  | ok u =>
    refine ⟨ext ++ [⟨cwd, command, args⟩], ?_⟩
    simp only [seqRun, runCmd]
    simp at h
    simp [h]

/-- The tag step only ever appends to the trace it is given. -/
theorem createTag_fst_append (exec : ExecOracle) (dir : String)
    (config : Config) (version : String) (trace : List Cmd) :
    ∃ ext : List Cmd,
      (createTag exec dir config version trace).1 = trace ++ ext := by
  simp only [createTag]
  cases hE : exec ⟨dir, "git", ["rev-parse", "-q", "--verify",
      s!"refs/tags/{renderTemplate config.tagName version}"]⟩ with
  | ok u => exact ⟨_, rfl⟩
  | error e =>
    cases e with
    | launchErr => exact ⟨_, rfl⟩
    | exitErr code =>
      by_cases hcode : code = 1
      · subst hcode
        simp only [if_pos rfl]
        have h0 : (trace ++ [(⟨dir, "git", ["rev-parse", "-q", "--verify",
            s!"refs/tags/{renderTemplate config.tagName version}"]⟩ : Cmd)],
            (Except.ok () : Except AppError Unit)).1 =
            trace ++ [⟨dir, "git", ["rev-parse", "-q", "--verify",
              s!"refs/tags/{renderTemplate config.tagName version}"]⟩] := rfl
        obtain ⟨e1, h1⟩ := seqRun_fst_append exec dir "git"
          ["config", "user.name", config.tagAuthor.name] trace _ _ h0
        obtain ⟨e2, h2⟩ := seqRun_fst_append exec dir "git"
          ["config", "user.email", config.tagAuthor.email] trace _ _ h1
        obtain ⟨e3, h3⟩ := seqRun_fst_append exec dir "git"
          ["tag", "-a", "-m", renderTemplate config.tagMessage version,
            renderTemplate config.tagName version] trace _ _ h2
        obtain ⟨e4, h4⟩ := seqRun_fst_append exec dir "git"
          ["push", "origin",
            s!"refs/tags/{renderTemplate config.tagName version}"]
          trace _ _ h3
        exact ⟨e4, by simpa [hE] using h4⟩
      · refine ⟨[⟨dir, "git", ["rev-parse", "-q", "--verify",
          s!"refs/tags/{renderTemplate config.tagName version}"]⟩], ?_⟩
        simp [hE, hcode]

/-- A successful `processDirectory` always reports exactly the three
outputs: changed=true, the declared version, and the matched commit's
identifier. -/
theorem processDirectory_ok_shape (exec : ExecOracle)
    (matchCapture : String → Option String) (dir : String) (config : Config)
    (packageRead : PackageRead) (commits : List Commit)
    (outs : List (String × String))
    (houts : (processDirectory exec matchCapture dir config packageRead
        commits).2 = .ok outs) :
    ∃ version c pkg, packageRead = some (some pkg) ∧
      pkg.version = some version ∧
      checkCommit matchCapture commits version = .ok c ∧
      outs = [("changed", "true"), ("version", version),
        ("commit", c.sha)] := by
  unfold processDirectory at houts
  split at houts
  · simp at houts
  · rename_i pkgOpt
    split at houts
    · simp at houts
    · rename_i version hver
      split at houts
      · simp at houts
      · rename_i tr u hrun
        split at houts
        · simp at houts
        · rename_i c hC
          split at houts
          · simp at houts
          · rename_i tr2 u2 hT
            split at houts
            · simp at houts
            · rename_i tr3 u3 hP
              simp only [Except.ok.injEq] at houts
              cases pkgOpt with
              | none => simp at hver
              | some pkg =>
                cases hpv : pkg.version with
                | none => simp [hpv] at hver
                | some v2 =>
                  simp [hpv] at hver
                  subst hver
                  exact ⟨v2, c, pkg, rfl, hpv, hC, houts.symm⟩

/-- C7: terminal reporting is exhaustive over the three outcomes: a
neutral stop reports changed=false and exits 0 without logging; a fatal
error reports changed=false, logs the failure's message and exits 1;
success keeps the outputs changed=true, the released version and the
matched commit's identifier, and exits 0. -/
theorem terminal_reporting (env : Env) (exec : ExecOracle)
    (matchCapture : String → Option String) (owner : TagAuthor)
    (commits : List Commit) (packageRead : PackageRead) (config : Config)
    (hcfg : loadConfig env owner = .ok config) :
    (∀ tr : List Cmd, ∀ m : String,
      processDirectory exec matchCapture (mainDir env) config packageRead
          commits = (tr, .error (.neutral m)) →
      mainRun env exec matchCapture owner commits packageRead =
        (tr, ⟨[("changed", "false")], 0, none⟩)) ∧
    (∀ tr : List Cmd, ∀ e : AppError, (∀ m : String, e ≠ .neutral m) →
      processDirectory exec matchCapture (mainDir env) config packageRead
          commits = (tr, .error e) →
      mainRun env exec matchCapture owner commits packageRead =
        (tr, ⟨[("changed", "false")], 1, some e.message⟩)) ∧
    (∀ tr : List Cmd, ∀ outs : List (String × String),
      processDirectory exec matchCapture (mainDir env) config packageRead
          commits = (tr, .ok outs) →
      mainRun env exec matchCapture owner commits packageRead =
        (tr, ⟨outs, 0, none⟩) ∧
      ∃ version c pkg, packageRead = some (some pkg) ∧
        pkg.version = some version ∧
        checkCommit matchCapture commits version = .ok c ∧
        outs = [("changed", "true"), ("version", version),
          ("commit", c.sha)]) := by
  refine ⟨fun tr m hpd => ?_, fun tr e hne hpd => ?_,
    fun tr outs hpd => ⟨?_, ?_⟩⟩
  · simp [mainRun, hcfg, hpd]
  · cases e with
    | neutral m => exact absurd rfl (hne m)
    | exit code => simp [mainRun, hcfg, hpd]
    | error m => simp [mainRun, hcfg, hpd]
  · simp [mainRun, hcfg, hpd]
  · exact processDirectory_ok_shape exec matchCapture (mainDir env) config
      packageRead commits outs (by rw [hpd])

/-- C7 witness: Scenario A end to end — tag absent, everything succeeds;
outputs changed=true, version 1.2.0, commit bbb, exit 0. -/
theorem terminal_reporting_witness :
    mainRun envEmpty execTagAbsent matchRelease ownerX commitsA
        (some (some pkgA)) =
      ([⟨"/github/workspace", "git",
          ["config", "--global", "--add", "safe.directory",
            "/github/workspace"]⟩,
        ⟨"/github/workspace", "git",
          ["rev-parse", "-q", "--verify", "refs/tags/v1.2.0"]⟩,
        ⟨"/github/workspace", "git", ["config", "user.name", "octo"]⟩,
        ⟨"/github/workspace", "git",
          ["config", "user.email", "octo@example.com"]⟩,
        ⟨"/github/workspace", "git", ["tag", "-a", "-m", "v1.2.0", "v1.2.0"]⟩,
        ⟨"/github/workspace", "git", ["push", "origin", "refs/tags/v1.2.0"]⟩,
        ⟨"/github/workspace", "yarn",
          ["publish", "--non-interactive", "--new-version", "1.2.0"]⟩],
       ⟨[("changed", "true"), ("version", "1.2.0"), ("commit", "bbb")],
        0, none⟩) := by
  have h := (terminal_reporting envEmpty execTagAbsent matchRelease ownerX
    commitsA (some (some pkgA)) cfgDefault rfl).2.2 _
    [("changed", "true"), ("version", "1.2.0"), ("commit", "bbb")] rfl
  exact h.1

/-- C8: the resolved create-tag value is compared against the exact
string "false" — that string alone disables tag creation (an absent
variable resolves to "" and enables it) — and with it disabled the tag
step is skipped entirely (no probe, tag or push command) while the
publish command is still invoked. -/
theorem create_tag_flag (env : Env) (owner : TagAuthor) (config : Config)
    (exec : ExecOracle) (matchCapture : String → Option String)
    (dir version : String) (pkg : PackageJson) (commits : List Commit)
    (c : Commit)
    (hcfg : loadConfig env owner = .ok config) :
    (config.createTag = false ↔ getEnv env "CREATE_TAG" = "false") ∧
    (config.createTag = false → pkg.version = some version →
      checkCommit matchCapture commits version = .ok c →
      exec ⟨dir, "git", ["config", "--global", "--add", "safe.directory",
        "/github/workspace"]⟩ = .ok () →
      (processDirectory exec matchCapture dir config (some (some pkg))
          commits).1 =
        [⟨dir, "git", ["config", "--global", "--add", "safe.directory",
          "/github/workspace"]⟩,
         ⟨dir, (publishCmdBase config.publishCommand version).headD "",
           (publishCmdBase config.publishCommand version).tail ++
             config.publishArgs⟩]) := by
  have hflag : config.createTag = (getEnv env "CREATE_TAG" != "false") := by
    simp only [loadConfig] at hcfg
    split at hcfg
    · simp at hcfg
    · split at hcfg
      · simp at hcfg
      · simp only [Except.ok.injEq] at hcfg
        rw [← hcfg]
  constructor
  · rw [hflag]
    simp [bne]
  · intro hct hpkg hfound hsafe
    have hpub := publishPackage_fst exec dir config version
      [⟨dir, "git", ["config", "--global", "--add", "safe.directory",
        "/github/workspace"]⟩]
    rcases hP : publishPackage exec dir config version
        [⟨dir, "git", ["config", "--global", "--add", "safe.directory",
          "/github/workspace"]⟩] with ⟨tr3, res3⟩
    rw [hP] at hpub
    simp only at hpub
    cases res3 with
    | error e =>
      simp [processDirectory, hpkg, runCmd, hsafe, hfound, hct, hP]
      simpa using hpub
    | ok u =>
      simp [processDirectory, hpkg, runCmd, hsafe, hfound, hct, hP]
      simpa using hpub

/-- C8 witness: Scenario E — `CREATE_TAG=false` yields a disabled flag,
and the run executes only the safe.directory command and the publish
command. -/
theorem create_tag_flag_witness :
    cfgNoTag.createTag = false ∧
    (processDirectory execAllOk matchRelease "/w" cfgNoTag
        (some (some pkgA)) commitsA).1 =
      [⟨"/w", "git", ["config", "--global", "--add", "safe.directory",
        "/github/workspace"]⟩,
       ⟨"/w", "yarn", ["publish", "--non-interactive", "--new-version",
         "1.2.0"]⟩] := by
  have h := create_tag_flag envNoTag ownerX cfgNoTag execAllOk matchRelease
    "/w" "1.2.0" pkgA commitsA ⟨"Release 1.2.0", "bbb"⟩ rfl
  have hflag : cfgNoTag.createTag = false := (h.1).mpr rfl
  have h2 := h.2 hflag rfl rfl rfl
  exact ⟨hflag, h2⟩

/-- C9: with readable package metadata, the first command the
orchestrator attempts is always `git config --global --add
safe.directory /github/workspace`, run in the workspace directory,
between the package read and the commit matcher (its conclusion holds
for every matcher and commit list); a non-zero exit or a launch failure
of this command is fatal — changed=false, exit status 1, message
logged — and no further command is attempted. -/
theorem safe_directory_step (env : Env) (exec : ExecOracle)
    (matchCapture : String → Option String) (owner : TagAuthor)
    (commits : List Commit) (pkg : PackageJson) (version : String)
    (config : Config)
    (hcfg : loadConfig env owner = .ok config)
    (hpkg : pkg.version = some version) :
    ((processDirectory exec matchCapture (mainDir env) config
        (some (some pkg)) commits).1.head? =
      some ⟨mainDir env, "git", ["config", "--global", "--add",
        "safe.directory", "/github/workspace"]⟩) ∧
    (∀ code : Int,
      exec ⟨mainDir env, "git", ["config", "--global", "--add",
        "safe.directory", "/github/workspace"]⟩ = .error (.exitErr code) →
      mainRun env exec matchCapture owner commits (some (some pkg)) =
        ([⟨mainDir env, "git", ["config", "--global", "--add",
          "safe.directory", "/github/workspace"]⟩],
         ⟨[("changed", "false")], 1,
          some s!"command failed with code {code}"⟩)) ∧
    (exec ⟨mainDir env, "git", ["config", "--global", "--add",
        "safe.directory", "/github/workspace"]⟩ = .error .launchErr →
      mainRun env exec matchCapture owner commits (some (some pkg)) =
        ([⟨mainDir env, "git", ["config", "--global", "--add",
          "safe.directory", "/github/workspace"]⟩],
         ⟨[("changed", "false")], 1, some "command failed: git"⟩)) := by
  refine ⟨?_, fun code hexec => ?_, fun hexec => ?_⟩
  · cases hE : exec ⟨mainDir env, "git", ["config", "--global", "--add",
        "safe.directory", "/github/workspace"]⟩ with
    | error e =>
      cases e with
      | exitErr code => simp [processDirectory, hpkg, runCmd, hE]
      | launchErr => simp [processDirectory, hpkg, runCmd, hE]
    | ok u =>
      cases hC : checkCommit matchCapture commits version with
      | error e => simp [processDirectory, hpkg, runCmd, hE, hC]
      | ok c =>
        by_cases hct : config.createTag
        · obtain ⟨ext, hext⟩ := createTag_fst_append exec (mainDir env)
            config version [⟨mainDir env, "git", ["config", "--global",
              "--add", "safe.directory", "/github/workspace"]⟩]
          rcases hT : createTag exec (mainDir env) config version
              [⟨mainDir env, "git", ["config", "--global", "--add",
                "safe.directory", "/github/workspace"]⟩] with ⟨tr2, res2⟩
          rw [hT] at hext
          simp only at hext
          cases res2 with
          | error e =>
            subst hext
            simp [processDirectory, hpkg, runCmd, hE, hC, hct, hT]
          | ok u2 =>
            subst hext
            rcases hP : publishPackage exec (mainDir env) config version
                (⟨mainDir env, "git", ["config", "--global", "--add",
                  "safe.directory", "/github/workspace"]⟩ :: ext)
              with ⟨tr3, res3⟩
            have hpub := publishPackage_fst exec (mainDir env) config
              version
              (⟨mainDir env, "git", ["config", "--global", "--add",
                "safe.directory", "/github/workspace"]⟩ :: ext)
            rw [hP] at hpub
            simp only at hpub
            cases res3 with
            | error e =>
              simp [processDirectory, hpkg, runCmd, hE, hC, hct, hT, hP,
                hpub]
            | ok u3 =>
              simp [processDirectory, hpkg, runCmd, hE, hC, hct, hT, hP,
                hpub]
        · rcases hP : publishPackage exec (mainDir env) config version
              [⟨mainDir env, "git", ["config", "--global", "--add",
                "safe.directory", "/github/workspace"]⟩] with ⟨tr3, res3⟩
          have hpub := publishPackage_fst exec (mainDir env) config version
            [⟨mainDir env, "git", ["config", "--global", "--add",
              "safe.directory", "/github/workspace"]⟩]
          rw [hP] at hpub
          simp only at hpub
          cases res3 with
          | error e =>
            simp [processDirectory, hpkg, runCmd, hE, hC, hct, hP, hpub]
          | ok u3 =>
            simp [processDirectory, hpkg, runCmd, hE, hC, hct, hP, hpub]
  · simp [mainRun, hcfg, processDirectory, hpkg, runCmd, hexec,
      AppError.message]
  · simp [mainRun, hcfg, processDirectory, hpkg, runCmd, hexec,
      AppError.message]
    rfl

/-- C9 witness: the safe.directory command exits 2 and the run is fatal
with only that command executed. -/
theorem safe_directory_step_witness :
    mainRun envEmpty execConfigFails matchRelease ownerX commitsA
        (some (some pkgA)) =
      ([⟨"/github/workspace", "git", ["config", "--global", "--add",
        "safe.directory", "/github/workspace"]⟩],
       ⟨[("changed", "false")], 1,
        some "command failed with code 2"⟩) := by
  have h := (safe_directory_step envEmpty execConfigFails matchRelease
    ownerX commitsA pkgA "1.2.0" cfgDefault rfl rfl).2.1 2 rfl
  exact h

/-- C10: the publish extra-arguments value is split on every single
space character — the fields joined by single spaces restore the value,
no field contains a space, and there is exactly one more field than
there are space characters (so each extra consecutive space contributes
an empty-string argument) — an absent or empty value yields no
arguments, and the resulting list is appended verbatim to the publish
command line. -/
theorem publish_args_split (env : Env) (l : List Char) (exec : ExecOracle)
    (dir version : String) (config : Config) (trace : List Cmd) :
    (joinWith [' '] (splitSpace l) = l ∧
      (splitSpace l).length = l.count ' ' + 1 ∧
      ∀ p ∈ splitSpace l, ' ' ∉ p) ∧
    (getEnv env "PUBLISH_ARGS" = "" → arrayEnv env "PUBLISH_ARGS" = []) ∧
    (getEnv env "PUBLISH_ARGS" ≠ "" →
      arrayEnv env "PUBLISH_ARGS" =
        (splitSpace (getEnv env "PUBLISH_ARGS").data).map
          (fun f => ⟨f⟩)) ∧
    ((publishPackage exec dir config version trace).1 =
      trace ++ [⟨dir,
        (publishCmdBase config.publishCommand version).headD "",
        (publishCmdBase config.publishCommand version).tail ++
          config.publishArgs⟩]) := by
  refine ⟨⟨join_splitSpace l, splitSpace_count l, splitSpace_no_space l⟩,
    fun h => ?_, fun h => ?_,
    publishPackage_fst exec dir config version trace⟩
  · simp [arrayEnv, h]
  · simp [arrayEnv, h]

/-- C10 witness: an unset variable yields no arguments, and `a␣␣b`
yields three fields, the middle one empty. -/
theorem publish_args_split_witness :
    arrayEnv envEmpty "PUBLISH_ARGS" = [] ∧
    (splitSpace "a  b".data).length = 3 ∧
    joinWith [' '] (splitSpace "a  b".data) = "a  b".data := by
  have h := publish_args_split envEmpty "a  b".data execAllOk "/w" "1.0"
    cfgDefault []
  refine ⟨h.2.1 rfl, ?_, h.1.1⟩
  rw [h.1.2.1]
  decide

/-- C1 witness: on Scenario A's list the matcher returns the second
commit, the first one not matching. -/
theorem checkCommit_first_match_witness :
    checkCommit matchRelease commitsA "1.2.0" =
      .ok ⟨"Release 1.2.0", "bbb"⟩ := by
  have h := (checkCommit_first_match matchRelease commitsA "1.2.0").1
    ⟨"Release 1.2.0", "bbb"⟩
  exact h.mpr ⟨[⟨"fix typo", "aaa"⟩], [], rfl, rfl, by decide⟩
